import Mathlib

/-
Verification of the bincomb layout-script engine: a shallow embedding of
src/lexer.rs, src/parser.rs and src/main.rs, together with theorems about
the lexer, the recursive-descent parser and the statement interpreter.

Machine integers (`usize`, `u8`, `u16`, `u32`) are modelled as `Nat` with
explicit bounds where the source performs a fallible narrowing
(`try_into`, `from_str_radix`).  The output file is modelled as a
`List Nat` of bytes, with absolute-offset read and write (a write past the
end zero-fills the gap, as a seek-past-EOF write on a freshly truncated
file does).  Fallible Rust functions returning `anyhow::Result` are
modelled with `Except Err`, where `Err` is an inductive carrying the same
data the source interpolates into its error messages.
-/

namespace Bincomb

/-- Error values of the engine.  Each constructor corresponds to one
`bail!`/`anyhow!` site (or fallible conversion) in the source, carrying the
data that the source interpolates into the message. -/
inductive Err where
  | unknownChar (c : Char)
  | unterminatedString
  | parseIntError
  | expectedSemicolon
  | unexpectedEndOfInput
  | endOfLineExpected
  | unexpectedPrimaryToken
  | expectedIdentifier
  | expectedDot
  | undefinedVariable (name : String)
  | undefinedConstant (name : String)
  | invalidExpression
  | invalidStatement
  | unknownFunction (name : String)
  | wrongArgCount
  | expectedStringOrConst
  | couldNotOpenFile (path : String)
  | httpError (url : String)
  | unknownAlgorithm (name : String)
  | narrowingOverflow
  | alreadyDefined (name : String)
deriving DecidableEq

/-- The token type of src/lexer.rs (`enum Token`). -/
inductive Token where
  | add
  | sub
  | comma
  | semicolon
  | dollar
  | dot
  | ident (name : String)
  | str (value : String)
  | num (value : Nat)
  | eol
deriving DecidableEq

/-- Character class of `Lexer::is_digit`. -/
def is_digit (c : Char) : Bool :=
  decide ('0' ≤ c) && decide (c ≤ '9')

/-- Character class of `Lexer::is_hex_digit`. -/
def is_hex_digit (c : Char) : Bool :=
  is_digit c || (decide ('a' ≤ c) && decide (c ≤ 'f')) ||
    (decide ('A' ≤ c) && decide (c ≤ 'F'))

/-- Character class of `Lexer::is_alpha`. -/
def is_alpha (c : Char) : Bool :=
  (decide ('a' ≤ c) && decide (c ≤ 'z')) ||
    (decide ('A' ≤ c) && decide (c ≤ 'Z')) || decide (c = '_')

/-- Character class of `Lexer::is_alpha_numeric`. -/
def is_alpha_numeric (c : Char) : Bool :=
  is_alpha c || is_digit c

/-- Value of one digit character under a radix, mirroring
`char::to_digit(radix)` as used by `usize::from_str_radix`. -/
def to_digit (radix : Nat) (c : Char) : Option Nat :=
  let d :=
    if is_digit c then some (c.toNat - 48)
    else if decide ('a' ≤ c) && decide (c ≤ 'z') then some (c.toNat - 97 + 10)
    else if decide ('A' ≤ c) && decide (c ≤ 'Z') then some (c.toNat - 65 + 10)
    else none
  match d with
  | some v => if v < radix then some v else none
  | none => none

/-- Numeric value of a digit string under a radix (invalid characters
count as 0; `fromStrRadix` only uses this on validated strings). -/
def digitsVal (radix : Nat) (cs : List Char) : Nat :=
  cs.foldl (fun a c => a * radix + (to_digit radix c).getD 0) 0

/-- All characters are valid digits for the radix. -/
def validDigits (radix : Nat) (cs : List Char) : Bool :=
  cs.all fun c => (to_digit radix c).isSome

/-- The optional leading `+` sign accepted by `from_str_radix`. -/
def stripPlus : List Char → List Char
  | '+' :: r => r
  | s => s

/-- Model of `usize::from_str_radix(s, radix)`: an optional leading `+`,
then at least one digit valid for the radix, and the value must fit in a
64-bit `usize`; anything else is a parse error. -/
def fromStrRadix (radix : Nat) (s : List Char) : Except Err Nat :=
  if stripPlus s = [] then .error .parseIntError
  else if validDigits radix (stripPlus s) then
    if digitsVal radix (stripPlus s) < 2 ^ 64 then
      .ok (digitsVal radix (stripPlus s))
    else .error .parseIntError
  else .error .parseIntError

/-- Model of `Lexer::integer`: `start` holds the already-consumed prefix
of the token (the first digit); the loop consumes further decimal digits
and the token text `line[start..current]` is parsed in base 10. -/
def integer (start : List Char) (cs : List Char) :
    Except Err (Token × List Char) :=
  match fromStrRadix 10 (start ++ cs.takeWhile is_digit) with
  | .ok v => .ok (.num v, cs.dropWhile is_digit)
  | .error e => .error e

/-- Model of `Lexer::integer_hex`: the `0x` prefix is already consumed;
the loop consumes hex digits and `line[start+2..current]` is parsed in
base 16 (so a bare `0x` is a parse error). -/
def integer_hex (cs : List Char) : Except Err (Token × List Char) :=
  match fromStrRadix 16 (cs.takeWhile is_hex_digit) with
  | .ok v => .ok (.num v, cs.dropWhile is_hex_digit)
  | .error e => .error e

/-- Model of `Lexer::probe_hex`: after an initial `0`, a following `x`
switches to hex; otherwise the `0` starts an ordinary decimal integer. -/
def probe_hex (cs : List Char) : Except Err (Token × List Char) :=
  match cs with
  | 'x' :: rest => integer_hex rest
  | _ => integer ['0'] cs

/-- Model of `Lexer::string`: consume up to the closing double quote; a
missing closing quote is an unterminated-string error. -/
def string_tok (cs : List Char) : Except Err (Token × List Char) :=
  match cs.dropWhile (fun c => c ≠ '"') with
  | [] => .error .unterminatedString
  | _ :: r => .ok (.str (String.mk (cs.takeWhile (fun c => c ≠ '"'))), r)

/-- Model of `Lexer::identifier`: the first character `c` is already
consumed; the loop consumes the remaining alphanumeric characters. -/
def identifier (c : Char) (cs : List Char) : Except Err (Token × List Char) :=
  .ok (.ident (String.mk (c :: cs.takeWhile is_alpha_numeric)),
    cs.dropWhile is_alpha_numeric)

/-- Model of `Lexer::next` (the `Iterator` impl): skip spaces and tabs,
then dispatch on the first character.  End of input and `#` (comment)
yield the end-of-line token, after which the iterator stops, so the
remaining input is discarded. -/
def nextToken : List Char → Except Err (Token × List Char)
  | [] => .ok (.eol, [])
  | c :: cs =>
    if c = ' ' ∨ c = '\t' then nextToken cs
    else if c = '+' then .ok (.add, cs)
    else if c = '-' then .ok (.sub, cs)
    else if c = ':' then .ok (.semicolon, cs)
    else if c = ',' then .ok (.comma, cs)
    else if c = '$' then .ok (.dollar, cs)
    else if c = '.' then .ok (.dot, cs)
    else if c = '"' then string_tok cs
    else if c = '#' then .ok (.eol, [])
    else if c = '0' then probe_hex cs
    else if is_digit c then integer [c] cs
    else if is_alpha c then identifier c cs
    else .error (.unknownChar c)

theorem dropWhile_length_le (p : Char → Bool) (l : List Char) :
    (l.dropWhile p).length ≤ l.length := by
  induction l with
  | nil => simp
  | cons c cs ih =>
    cases hp : p c
    · simp [List.dropWhile_cons, hp]
    · simp only [List.dropWhile_cons, hp, if_true, List.length_cons]
      omega

theorem string_tok_length (cs : List Char) (t : Token) (rest : List Char)
    (h : string_tok cs = .ok (t, rest)) : rest.length ≤ cs.length := by
  unfold string_tok at h
  have hd := dropWhile_length_le (fun c => c ≠ '"') cs
  cases he : cs.dropWhile (fun c => c ≠ '"') with
  | nil => rw [he] at h; exact absurd h (by simp)
  | cons x r =>
    rw [he] at h
    simp only [Except.ok.injEq, Prod.mk.injEq] at h
    obtain ⟨h1, h2⟩ := h
    subst h2
    rw [he] at hd
    simp only [List.length_cons] at hd
    omega

theorem integer_length (start cs : List Char) (t : Token) (rest : List Char)
    (h : integer start cs = .ok (t, rest)) : rest.length ≤ cs.length := by
  unfold integer at h
  cases hf : fromStrRadix 10 (start ++ cs.takeWhile is_digit) with
  | error e => rw [hf] at h; exact absurd h (by simp)
  | ok v =>
    rw [hf] at h
    simp only [Except.ok.injEq, Prod.mk.injEq] at h
    rw [← h.2]
    exact dropWhile_length_le _ _

theorem integer_hex_length (cs : List Char) (t : Token) (rest : List Char)
    (h : integer_hex cs = .ok (t, rest)) : rest.length ≤ cs.length := by
  unfold integer_hex at h
  cases hf : fromStrRadix 16 (cs.takeWhile is_hex_digit) with
  | error e => rw [hf] at h; exact absurd h (by simp)
  | ok v =>
    rw [hf] at h
    simp only [Except.ok.injEq, Prod.mk.injEq] at h
    rw [← h.2]
    exact dropWhile_length_le _ _

theorem identifier_length (c : Char) (cs : List Char) (t : Token)
    (rest : List Char) (h : identifier c cs = .ok (t, rest)) :
    rest.length ≤ cs.length := by
  unfold identifier at h
  simp only [Except.ok.injEq, Prod.mk.injEq] at h
  rw [← h.2]
  exact dropWhile_length_le _ _

theorem probe_hex_length (cs : List Char) (t : Token) (rest : List Char)
    (h : probe_hex cs = .ok (t, rest)) : rest.length ≤ cs.length := by
  unfold probe_hex at h
  split at h
  · have := integer_hex_length _ _ _ h
    simp only [List.length_cons]
    omega
  · exact integer_length _ _ _ _ h

set_option maxHeartbeats 1600000 in
/-- A token other than end-of-line always consumes at least one input
character. -/
theorem nextToken_lt : ∀ (cs : List Char) (t : Token) (rest : List Char),
    nextToken cs = .ok (t, rest) → t ≠ .eol → rest.length < cs.length := by
  intro cs
  induction cs with
  | nil =>
    intro t rest h ht
    unfold nextToken at h
    cases h
    exact absurd rfl ht
  | cons c cs ih =>
    intro t rest h ht
    unfold nextToken at h
    by_cases hsp : c = ' ' ∨ c = '\t'
    · rw [if_pos hsp] at h
      have := ih t rest h ht
      simp only [List.length_cons]
      omega
    · rw [if_neg hsp] at h
      simp only [List.length_cons]
      split at h
      · cases h; omega
      · split at h
        · cases h; omega
        · split at h
          · cases h; omega
          · split at h
            · cases h; omega
            · split at h
              · cases h; omega
              · split at h
                · cases h; omega
                · split at h
                  · have := string_tok_length cs t rest h; omega
                  · split at h
                    · cases h; exact absurd rfl ht
                    · split at h
                      · have := probe_hex_length cs t rest h; omega
                      · split at h
                        · have := integer_length [c] cs t rest h; omega
                        · split at h
                          · have := identifier_length c cs t rest h; omega
                          · exact absurd h (by simp)

/-- Model of collecting the `Lexer` iterator into a token vector, as
`main` does: tokens are produced until the first end-of-line token (which
is included) or the first lexical error (which aborts the line). -/
def lexLine (cs : List Char) : Except Err (List Token) :=
  match h : nextToken cs with
  | .error e => .error e
  | .ok (t, rest) =>
    if ht : t = .eol then .ok [.eol]
    else
      match lexLine rest with
      | .error e => .error e
      | .ok ts => .ok (t :: ts)
termination_by cs.length
decreasing_by exact nextToken_lt cs t rest h ht

/-- The expression AST.  src/parser.rs declares `enum Expr` without a
`Const` variant (and with the statement field named `variable`), while
src/main.rs pattern-matches `parser::Expr::Const(..)` and the field
`var_name`; the two files cannot compile together.  This model includes
`const` so that the evaluator and builtins of main.rs can be embedded
faithfully; the parser functions as written in parser.rs never produce
it. -/
inductive Expr where
  | statement (offset : Expr) (var_name : String) (func : Expr)
  | binary (op : Token) (left : Expr) (right : Expr)
  | call (callee : String) (args : List Expr)
  | var (name : String)
  | const (name : String)
  | str (value : String)
  | literal (value : Nat)

namespace Parser

/-- Model of `Parser::cons_semicolon`: consume one `:` token. -/
def cons_semicolon : List Token → Except Err (List Token)
  | .semicolon :: ts => .ok ts
  | _ => .error .expectedSemicolon

/-- Model of `Parser::cons_ident`: consume one identifier token (the
source's error message here is also "Expected semicolon."). -/
def cons_ident : List Token → Except Err (String × List Token)
  | .ident name :: ts => .ok (name, ts)
  | _ => .error .expectedSemicolon

/-- Model of `Parser::variable`: the `$` is already consumed; expect
identifier, dot, identifier, and build the qualified name by string
concatenation exactly as the source's `push_str` calls do. -/
def varRef : List Token → Except Err (Expr × List Token)
  | .ident name :: .dot :: .ident field :: ts =>
    .ok (.var (name ++ "." ++ field), ts)
  | .ident _ :: .dot :: _ => .error .expectedIdentifier
  | .ident _ :: _ => .error .expectedDot
  | _ => .error .expectedIdentifier

/-- Model of `Parser::primary`: a number, a string, or a `$`-variable
reference.  A bare identifier token is not accepted. -/
def primary : List Token → Except Err (Expr × List Token)
  | .num v :: ts => .ok (.literal v, ts)
  | .str s :: ts => .ok (.str s, ts)
  | .dollar :: ts => varRef ts
  | _ => .error .unexpectedPrimaryToken

theorem varRef_lt (ts : List Token) (e : Expr) (ts' : List Token)
    (h : varRef ts = .ok (e, ts')) : ts'.length < ts.length := by
  unfold varRef at h
  split at h
  · cases h; simp only [List.length_cons]; omega
  · exact absurd h (by simp)
  · exact absurd h (by simp)
  · exact absurd h (by simp)

theorem primary_lt (ts : List Token) (e : Expr) (ts' : List Token)
    (h : primary ts = .ok (e, ts')) : ts'.length < ts.length := by
  unfold primary at h
  split at h
  · cases h; simp only [List.length_cons]; omega
  · cases h; simp only [List.length_cons]; omega
  · have := varRef_lt _ _ _ h
    simp only [List.length_cons]
    omega
  · exact absurd h (by simp)

/-- Model of `Parser::expr`: a primary, optionally followed by `+` or `-`
and a full recursive expression as the right operand, so operator chains
associate to the right. -/
def expr (ts : List Token) : Except Err (Expr × List Token) :=
  match h : primary ts with
    | .error e => .error e
    | .ok (e1, .add :: ts2) =>
      match expr ts2 with
      | .error e => .error e
      | .ok (r, ts3) => .ok (.binary .add e1 r, ts3)
    | .ok (e1, .sub :: ts2) =>
      match expr ts2 with
      | .error e => .error e
      | .ok (r, ts3) => .ok (.binary .sub e1 r, ts3)
    | .ok (e1, ts1) => .ok (e1, ts1)
termination_by ts.length
decreasing_by
  all_goals
    have hp := primary_lt _ _ _ h
    simp only [List.length_cons] at hp
    omega

theorem expr_lt : ∀ (n : Nat) (ts : List Token) (e : Expr) (ts' : List Token),
    ts.length ≤ n → expr ts = .ok (e, ts') → ts'.length < ts.length := by
  intro n
  induction n with
  | zero =>
    intro ts e ts' hn h
    rw [expr.eq_def] at h
    split at h
    · exact absurd h (by simp)
    all_goals
      rename_i heq
      have := primary_lt _ _ _ heq
      omega
  | succ n ih =>
    intro ts e ts' hn h
    rw [expr.eq_def] at h
    split at h
    · exact absurd h (by simp)
    · rename_i e1 ts2 heq
      have hp := primary_lt _ _ _ heq
      split at h
      · exact absurd h (by simp)
      · rename_i heq2
        cases h
        have hr := ih ts2 _ _ (by simp only [List.length_cons] at hp; omega) heq2
        simp only [List.length_cons] at hp
        omega
    · rename_i e1 ts2 heq
      have hp := primary_lt _ _ _ heq
      split at h
      · exact absurd h (by simp)
      · rename_i heq2
        cases h
        have hr := ih ts2 _ _ (by simp only [List.length_cons] at hp; omega) heq2
        simp only [List.length_cons] at hp
        omega
    · rename_i e1 ts1 heq
      cases h
      exact primary_lt _ _ _ heq

/-- Model of the `while let Some(arg) = self.cons_arg()` loop of
`Parser::statement` together with `Parser::cons_arg`: a comma starts one
more argument (a full expression); exhausted input is an error; anything
else ends the argument list. -/
def parseArgs : List Token → Except Err (List Expr × List Token)
  | [] => .error .unexpectedEndOfInput
  | .comma :: ts1 =>
    match h : expr ts1 with
    | .error e => .error e
    | .ok (a, ts2) =>
      match parseArgs ts2 with
      | .error e => .error e
      | .ok (args, ts3) => .ok (a :: args, ts3)
  | ts => .ok ([], ts)
termination_by ts => ts.length
decreasing_by
  have := expr_lt ts1.length ts1 a ts2 (Nat.le_refl _) h
  simp only [List.length_cons]
  omega

/-- Model of `Parser::statement`: offset expression, `:`, destination
identifier, `:`, function identifier, the argument list, and a required
end-of-line token. -/
def statement (ts : List Token) : Except Err Expr :=
  match expr ts with
  | .error e => .error e
  | .ok (off, ts1) =>
    match cons_semicolon ts1 with
    | .error e => .error e
    | .ok ts2 =>
      match cons_ident ts2 with
      | .error e => .error e
      | .ok (var_name, ts3) =>
        match cons_semicolon ts3 with
        | .error e => .error e
        | .ok ts4 =>
          match cons_ident ts4 with
          | .error e => .error e
          | .ok (func_name, ts5) =>
            match parseArgs ts5 with
            | .error e => .error e
            | .ok (func_args, ts6) =>
              match ts6 with
              | .eol :: _ =>
                .ok (.statement off var_name (.call func_name func_args))
              | _ => .error .endOfLineExpected

/-- Model of `Parser::parse`: a leading end-of-line token (blank or
comment line) yields no statement; an empty token list is an error;
anything else parses as a statement. -/
def parse : List Token → Option (Except Err Expr)
  | [] => some (.error .unexpectedEndOfInput)
  | .eol :: _ => none
  | ts => some (statement ts)

end Parser

/-- Association-list model of `HashMap::get`/`insert`/`contains_key`:
insertion prepends, lookup takes the most recent binding. -/
def hmGet {α : Type} : List (String × α) → String → Option α
  | [], _ => none
  | (k, v) :: rest, key => if k = key then some v else hmGet rest key

/-- The caller-supplied external constants (`HashMap<String, String>`). -/
abbrev Consts : Type := List (String × String)

/-- The variable environment (`HashMap<String, usize>`). -/
abbrev Vars : Type := List (String × Nat)

/-- Model of `evaluate` in src/main.rs: literals, variable lookups,
constant lookups parsed as base-10 integers, and `+`/`-` chains; any
other expression kind in numeric position is an error.  `usize`
subtraction underflow is left unspecified by the source and modelled as
truncated `Nat` subtraction. -/
def evaluate (consts : Consts) (vars : Vars) : Expr → Except Err Nat
  | .literal value => .ok value
  | .var name =>
    match hmGet vars name with
    | some value => .ok value
    | none => .error (.undefinedVariable name)
  | .const name =>
    match hmGet consts name with
    | some value => fromStrRadix 10 value.data
    | none => .error (.undefinedConstant name)
  | .binary .add left right =>
    match evaluate consts vars left with
    | .error e => .error e
    | .ok op1 =>
      match evaluate consts vars right with
      | .error e => .error e
      | .ok op2 => .ok (op1 + op2)
  | .binary .sub left right =>
    match evaluate consts vars left with
    | .error e => .error e
    | .ok op1 =>
      match evaluate consts vars right with
      | .error e => .error e
      | .ok op2 => .ok (op1 - op2)
  | _ => .error .invalidExpression

/-- The output file as a byte list; `writeBytes out pos bs` is a seek to
absolute offset `pos` followed by a write of `bs`, zero-filling any gap
between the current end of file and `pos`. -/
def writeBytes (out : List Nat) (pos : Nat) (bs : List Nat) : List Nat :=
  (out.take pos ++ List.replicate (pos - out.length) 0) ++ bs ++
    out.drop (pos + bs.length)

/-- A seek to absolute offset `pos` followed by a read of `len` bytes
into a zero-initialized buffer (`vec![0; length]` in `func_crc16`):
bytes beyond the end of file leave their buffer slots zero. -/
def readBytes (out : List Nat) (pos : Nat) (len : Nat) : List Nat :=
  (List.range len).map fun i => out.getD (pos + i) 0

/-- Little-endian bytes of a `u16` (`to_le_bytes`). -/
def le_bytes2 (v : Nat) : List Nat :=
  [v % 256, v / 256 % 256]

/-- Little-endian bytes of a `u32` (`to_le_bytes`). -/
def le_bytes4 (v : Nat) : List Nat :=
  [v % 256, v / 2 ^ 8 % 256, v / 2 ^ 16 % 256, v / 2 ^ 24 % 256]

/-- Parameters of a reflected (refin = refout = true) 16-bit CRC: the
bit-reversed polynomial, the initial value, and the final xor. -/
structure CrcAlgo where
  polyRev : Nat
  init : Nat
  xorout : Nat

/-- One step of the reflected CRC shift register. -/
def crcStep (poly : Nat) (c : Nat) : Nat :=
  if c % 2 = 1 then Nat.xor (c / 2) poly else c / 2

/-- Fold one input byte into the reflected CRC state. -/
def crcByte (poly : Nat) (c : Nat) (b : Nat) : Nat :=
  (List.range 8).foldl (fun acc _ => crcStep poly acc) (Nat.xor c b)

/-- The crc crate's `CRC_16_IBM_SDLC` (CRC-16/X-25): poly 0x1021
reflected, init 0xFFFF, refin/refout true, xorout 0xFFFF; check value
0x906E. -/
def CRC_16_IBM_SDLC : CrcAlgo := ⟨0x8408, 0xFFFF, 0xFFFF⟩

/-- The crc crate's `CRC_16_MODBUS`: poly 0x8005 reflected, init 0xFFFF,
refin/refout true, xorout 0x0000; check value 0x4B37. -/
def CRC_16_MODBUS : CrcAlgo := ⟨0xA001, 0xFFFF, 0x0⟩

/-- Model of `Crc::<u16>::checksum` for a reflected algorithm. -/
def crcChecksum (a : CrcAlgo) (data : List Nat) : Nat :=
  Nat.xor (data.foldl (crcByte a.polyRev) a.init) a.xorout

/-- Model of `func_file`: one string-or-constant path argument; the file
system is an explicit map from path to contents standing in for
`File::open` + `io::copy`; the whole file is copied to the output at the
statement offset and the byte count is returned. -/
def func_file (consts : Consts) (fs : List (String × List Nat))
    (args : List Expr) (offset : Nat) (outf : List Nat) :
    Except Err (Nat × List Nat) :=
  match args with
  | [a0] =>
    match (match a0 with
      | .str value => Except.ok value
      | .const name =>
        match hmGet consts name with
        | some value => Except.ok value
        | none => Except.error (Err.undefinedConstant name)
      | _ => Except.error Err.expectedStringOrConst : Except Err String) with
    | .error e => .error e
    | .ok path =>
      match hmGet fs path with
      | some contents => .ok (contents.length, writeBytes outf offset contents)
      | none => .error (.couldNotOpenFile path)
  | _ => .error .wrongArgCount

/-- Model of `func_url`: one string-or-constant URL argument; the network
is an explicit map from URL to response body standing in for the blocking
HTTP GET (an absent entry models a fetch or status failure); the body is
streamed to the output at the statement offset. -/
def func_url (consts : Consts) (net : List (String × List Nat))
    (args : List Expr) (offset : Nat) (outf : List Nat) :
    Except Err (Nat × List Nat) :=
  match args with
  | [a0] =>
    match (match a0 with
      | .str value => Except.ok value
      | .const name =>
        match hmGet consts name with
        | some value => Except.ok value
        | none => Except.error (Err.undefinedConstant name)
      | _ => Except.error Err.expectedStringOrConst : Except Err String) with
    | .error e => .error e
    | .ok url =>
      match hmGet net url with
      | some body => .ok (body.length, writeBytes outf offset body)
      | none => .error (.httpError url)
  | _ => .error .wrongArgCount

/-- Model of `func_crc16`: three arguments (algorithm name as string or
constant, address, length); read `length` bytes at `addr` from the
output, look the algorithm up in the fixed catalogue, and write the
2-byte little-endian checksum at the statement's own offset. -/
def func_crc16 (consts : Consts) (vars : Vars) (args : List Expr)
    (offset : Nat) (outf : List Nat) : Except Err (Nat × List Nat) :=
  match args with
  | [a0, a1, a2] =>
    match (match a0 with
      | .str value => Except.ok value
      | .const name =>
        match hmGet consts name with
        | some value => Except.ok value
        | none => Except.error (Err.undefinedConstant name)
      | _ => Except.error Err.expectedStringOrConst : Except Err String) with
    | .error e => .error e
    | .ok algo_name =>
      match evaluate consts vars a1 with
      | .error e => .error e
      | .ok addr =>
        match evaluate consts vars a2 with
        | .error e => .error e
        | .ok length =>
          let bin := readBytes outf addr length
          match (if algo_name = "ibm_sdlc" then some CRC_16_IBM_SDLC
            else if algo_name = "modbus" then some CRC_16_MODBUS
            else none) with
          | some algo =>
            let bytes := le_bytes2 (crcChecksum algo bin)
            .ok (bytes.length, writeBytes outf offset bytes)
          | none => .error (.unknownAlgorithm algo_name)
  | _ => .error .wrongArgCount

/-- Model of `func_u32`: evaluate the single argument, narrow to `u32`
(`try_into` fails iff the value does not fit), write the 4 little-endian
bytes at the statement offset. -/
def func_u32 (consts : Consts) (vars : Vars) (args : List Expr)
    (offset : Nat) (outf : List Nat) : Except Err (Nat × List Nat) :=
  match args with
  | [a0] =>
    match evaluate consts vars a0 with
    | .error e => .error e
    | .ok v =>
      if v < 2 ^ 32 then .ok (4, writeBytes outf offset (le_bytes4 v))
      else .error .narrowingOverflow
  | _ => .error .wrongArgCount

/-- Model of `func_u16`: as `func_u32` at width 16. -/
def func_u16 (consts : Consts) (vars : Vars) (args : List Expr)
    (offset : Nat) (outf : List Nat) : Except Err (Nat × List Nat) :=
  match args with
  | [a0] =>
    match evaluate consts vars a0 with
    | .error e => .error e
    | .ok v =>
      if v < 2 ^ 16 then .ok (2, writeBytes outf offset (le_bytes2 v))
      else .error .narrowingOverflow
  | _ => .error .wrongArgCount

/-- Model of `func_u8`: as `func_u32` at width 8 (a single byte). -/
def func_u8 (consts : Consts) (vars : Vars) (args : List Expr)
    (offset : Nat) (outf : List Nat) : Except Err (Nat × List Nat) :=
  match args with
  | [a0] =>
    match evaluate consts vars a0 with
    | .error e => .error e
    | .ok v =>
      if v < 2 ^ 8 then .ok (1, writeBytes outf offset [v])
      else .error .narrowingOverflow
  | _ => .error .wrongArgCount

/-- The builtin dispatch of `interpret`: match on the callee name, with
unknown names failing at dispatch time. -/
def runBuiltin (consts : Consts) (fs net : List (String × List Nat))
    (vars : Vars) (callee : String) (args : List Expr) (pos : Nat)
    (outf : List Nat) : Except Err (Nat × List Nat) :=
  match callee with
  | "file" => func_file consts fs args pos outf
  | "url" => func_url consts net args pos outf
  | "u32" => func_u32 consts vars args pos outf
  | "u16" => func_u16 consts vars args pos outf
  | "u8" => func_u8 consts vars args pos outf
  | "crc16" => func_crc16 consts vars args pos outf
  | _ => .error (.unknownFunction callee)

/-- Model of `add_variables`: reject a destination whose `.start` key is
already present, otherwise insert the `start`/`size`/`end` triple. -/
def add_variables (vars : Vars) (name : String) (addr : Nat) (size : Nat) :
    Except Err Vars :=
  if (hmGet vars (name ++ ".start")).isSome then
    .error (.alreadyDefined name)
  else
    .ok ((name ++ ".end", addr + size) :: (name ++ ".size", size) ::
      (name ++ ".start", addr) :: vars)

/-- The mutable state threaded through `interpret`: the variable
environment and the open output file. -/
structure St where
  vars : Vars
  out : List Nat

/-- Model of `interpret`: evaluate the statement offset, dispatch the
call, then record the region unless the destination is `_`.  The Rust
function mutates `vars` and `outf` in place and returns `Result<()>`;
here it returns the state as mutated so far together with the error, if
any, so that writes performed before a failure are retained exactly as
they are on the real output file. -/
def interpret (consts : Consts) (fs net : List (String × List Nat))
    (e : Expr) (st : St) : St × Option Err :=
  match e with
  | .statement offset var_name func =>
    match evaluate consts st.vars offset with
    | .error er => (st, some er)
    | .ok pos =>
      match func with
      | .call callee args =>
        match runBuiltin consts fs net st.vars callee args pos st.out with
        | .error er => (st, some er)
        | .ok (length, out') =>
          if var_name ≠ "_" then
            match add_variables st.vars var_name pos length with
            | .error er => (⟨st.vars, out'⟩, some er)
            | .ok vars' => (⟨vars', out'⟩, none)
          else (⟨st.vars, out'⟩, none)
      | _ => (st, some .invalidStatement)
  | _ => (st, some .invalidStatement)

/-- Run a list of parsed statements in order, stopping at the first
failing one, as the driver loop in `main` does. -/
def run (consts : Consts) (fs net : List (String × List Nat)) :
    List Expr → St → St × Option Err
  | [], st => (st, none)
  | e :: es, st =>
    match interpret consts fs net e st with
    | (st', none) => run consts fs net es st'
    | (st', some er) => (st', some er)

theorem writeBytes_prefix_length (out : List Nat) (pos : Nat) :
    (out.take pos ++ List.replicate (pos - out.length) 0).length = pos := by
  simp only [List.length_append, List.length_take, List.length_replicate]
  omega

theorem writeBytes_getD (out : List Nat) (pos : Nat) (bs : List Nat) (i : Nat)
    (hi : i < bs.length) :
    (writeBytes out pos bs).getD (pos + i) 0 = bs.getD i 0 := by
  unfold writeBytes
  have hlen := writeBytes_prefix_length out pos
  rw [List.getD_append _ _ _ _ (by simp only [List.length_append, hlen]; omega),
    List.getD_append_right _ _ _ _ (by omega), hlen]
  congr 1
  omega

/-- Reading back the just-written range returns exactly the written
bytes. -/
theorem readBytes_writeBytes (out : List Nat) (pos : Nat) (bs : List Nat) :
    readBytes (writeBytes out pos bs) pos bs.length = bs := by
  unfold readBytes
  apply List.ext_getElem
  · simp
  · intro i h1 h2
    simp only [List.getElem_map, List.getElem_range]
    rw [writeBytes_getD out pos bs i h2]
    exact List.getD_eq_getElem bs 0 h2

/-- When the read range is entirely inside the file, `readBytes` returns
the actual slice of the output. -/
theorem readBytes_in_bounds (out : List Nat) (pos len : Nat)
    (h : pos + len ≤ out.length) :
    readBytes out pos len = (out.drop pos).take len := by
  unfold readBytes
  apply List.ext_getElem
  · simp only [List.length_map, List.length_range, List.length_take,
      List.length_drop]
    omega
  · intro i h1 h2
    simp only [List.getElem_map, List.getElem_range, List.getElem_take,
      List.getElem_drop]
    rw [List.getD_eq_getElem out 0 (by simp only [List.length_map, List.length_range] at h1; omega)]

/-- C5: a `u32` statement whose argument evaluates to a value fitting in
32 bits, executed at offset `pos`, writes the four little-endian bytes of
the value at positions [pos, pos+4) of the output and returns length 4;
in particular value 0x01020304 yields the byte sequence 04 03 02 01. -/
theorem func_u32_writes_le (consts : Consts) (vars : Vars) (arg : Expr)
    (v pos : Nat) (out : List Nat)
    (hv : evaluate consts vars arg = .ok v) (hlt : v < 2 ^ 32) :
    func_u32 consts vars [arg] pos out =
      .ok (4, writeBytes out pos (le_bytes4 v)) ∧
    readBytes (writeBytes out pos (le_bytes4 v)) pos 4 = le_bytes4 v ∧
    le_bytes4 0x01020304 = [4, 3, 2, 1] := by
  refine ⟨?_, ?_, by decide⟩
  · simp only [func_u32, hv, if_pos hlt]
  · have h := readBytes_writeBytes out pos (le_bytes4 v)
    simpa only [le_bytes4, List.length_cons, List.length_nil] using h

theorem func_u32_writes_le_witness :
    func_u32 [] [] [.literal 0x01020304] 2 [9, 9] =
      .ok (4, writeBytes [9, 9] 2 (le_bytes4 0x01020304)) ∧
    readBytes (writeBytes [9, 9] 2 (le_bytes4 0x01020304)) 2 4 =
      le_bytes4 0x01020304 ∧
    le_bytes4 0x01020304 = [4, 3, 2, 1] :=
  func_u32_writes_le [] [] (.literal 0x01020304) 0x01020304 2 [9, 9] rfl
    (by decide)

/-- C6: a `u8`, `u16` or `u32` statement whose argument evaluates to a
value exceeding the named bit width fails with the narrowing-conversion
error, and the whole statement leaves both the variable environment and
the output untouched. -/
theorem narrowing_overflow_errors (consts : Consts)
    (fs net : List (String × List Nat)) (st : St) (arg offE : Expr)
    (v pos : Nat) (d : String)
    (hv : evaluate consts st.vars arg = .ok v)
    (hoff : evaluate consts st.vars offE = .ok pos) :
    (2 ^ 8 ≤ v →
      func_u8 consts st.vars [arg] pos st.out = .error .narrowingOverflow ∧
      interpret consts fs net (.statement offE d (.call "u8" [arg])) st =
        (st, some .narrowingOverflow)) ∧
    (2 ^ 16 ≤ v →
      func_u16 consts st.vars [arg] pos st.out = .error .narrowingOverflow ∧
      interpret consts fs net (.statement offE d (.call "u16" [arg])) st =
        (st, some .narrowingOverflow)) ∧
    (2 ^ 32 ≤ v →
      func_u32 consts st.vars [arg] pos st.out = .error .narrowingOverflow ∧
      interpret consts fs net (.statement offE d (.call "u32" [arg])) st =
        (st, some .narrowingOverflow)) := by
  refine ⟨fun h8 => ⟨?_, ?_⟩, fun h16 => ⟨?_, ?_⟩, fun h32 => ⟨?_, ?_⟩⟩
  · simp only [func_u8, hv, if_neg (by omega : ¬ v < 2 ^ 8)]
  · simp only [interpret, hoff, runBuiltin, func_u8, hv,
      if_neg (by omega : ¬ v < 2 ^ 8)]
  · simp only [func_u16, hv, if_neg (by omega : ¬ v < 2 ^ 16)]
  · simp only [interpret, hoff, runBuiltin, func_u16, hv,
      if_neg (by omega : ¬ v < 2 ^ 16)]
  · simp only [func_u32, hv, if_neg (by omega : ¬ v < 2 ^ 32)]
  · simp only [interpret, hoff, runBuiltin, func_u32, hv,
      if_neg (by omega : ¬ v < 2 ^ 32)]

theorem narrowing_overflow_errors_witness :
    (2 ^ 8 ≤ 4294967296 →
      func_u8 [] [] [.literal 4294967296] 0 [] = .error .narrowingOverflow ∧
      interpret [] [] [] (.statement (.literal 0) "x" (.call "u8" [.literal 4294967296])) ⟨[], []⟩ =
        (⟨[], []⟩, some .narrowingOverflow)) ∧
    (2 ^ 16 ≤ 4294967296 →
      func_u16 [] [] [.literal 4294967296] 0 [] = .error .narrowingOverflow ∧
      interpret [] [] [] (.statement (.literal 0) "x" (.call "u16" [.literal 4294967296])) ⟨[], []⟩ =
        (⟨[], []⟩, some .narrowingOverflow)) ∧
    (2 ^ 32 ≤ 4294967296 →
      func_u32 [] [] [.literal 4294967296] 0 [] = .error .narrowingOverflow ∧
      interpret [] [] [] (.statement (.literal 0) "x" (.call "u32" [.literal 4294967296])) ⟨[], []⟩ =
        (⟨[], []⟩, some .narrowingOverflow)) :=
  narrowing_overflow_errors [] [] [] ⟨[], []⟩ (.literal 4294967296)
    (.literal 0) 4294967296 0 "x" rfl rfl

theorem interpret_dup_aux (consts : Consts) (fs net : List (String × List Nat))
    (vars : Vars) (out : List Nat) (offE : Expr) (d callee : String)
    (args : List Expr) (pos len v : Nat) (out' : List Nat)
    (hd : d ≠ "_")
    (hoff : evaluate consts vars offE = .ok pos)
    (hb : runBuiltin consts fs net vars callee args pos out = .ok (len, out'))
    (hdup : hmGet vars (d ++ ".start") = some v) :
    interpret consts fs net (.statement offE d (.call callee args)) ⟨vars, out⟩ =
      (⟨vars, out'⟩, some (.alreadyDefined d)) := by
  simp only [interpret, hoff, hb, if_pos hd, add_variables, hdup,
    Option.isSome_some, if_true]

theorem interpret_fresh_aux (consts : Consts) (fs net : List (String × List Nat))
    (vars : Vars) (out : List Nat) (offE : Expr) (d callee : String)
    (args : List Expr) (pos len : Nat) (out' : List Nat)
    (hd : d ≠ "_")
    (hoff : evaluate consts vars offE = .ok pos)
    (hb : runBuiltin consts fs net vars callee args pos out = .ok (len, out'))
    (hnone : hmGet vars (d ++ ".start") = none) :
    interpret consts fs net (.statement offE d (.call callee args)) ⟨vars, out⟩ =
      (⟨(d ++ ".end", pos + len) :: (d ++ ".size", len) ::
        (d ++ ".start", pos) :: vars, out'⟩, none) := by
  simp only [interpret, hoff, hb, if_pos hd, add_variables, hnone,
    Option.isSome_none, Bool.false_eq_true, if_false]

/-- C2: for a statement whose destination `d` is not `_` and whose offset
and builtin call succeed, execution fails with the duplicate-definition
error when `d.start` is already bound, leaving the variable environment
unchanged (so it retains exactly the first definition of `d`); when
`d.start` is absent, exactly the triple `d.start = pos`, `d.size = len`,
`d.end = pos + len` is inserted. -/
theorem interpret_destination_recording (consts : Consts)
    (fs net : List (String × List Nat)) (vars : Vars) (out : List Nat)
    (offE : Expr) (d callee : String) (args : List Expr)
    (pos len : Nat) (out' : List Nat)
    (hd : d ≠ "_")
    (hoff : evaluate consts vars offE = .ok pos)
    (hb : runBuiltin consts fs net vars callee args pos out = .ok (len, out')) :
    ((∃ v, hmGet vars (d ++ ".start") = some v) →
      interpret consts fs net (.statement offE d (.call callee args)) ⟨vars, out⟩ =
        (⟨vars, out'⟩, some (.alreadyDefined d))) ∧
    (hmGet vars (d ++ ".start") = none →
      interpret consts fs net (.statement offE d (.call callee args)) ⟨vars, out⟩ =
        (⟨(d ++ ".end", pos + len) :: (d ++ ".size", len) ::
          (d ++ ".start", pos) :: vars, out'⟩, none)) := by
  constructor
  · rintro ⟨v, hv⟩
    exact interpret_dup_aux consts fs net vars out offE d callee args pos len v
      out' hd hoff hb hv
  · intro hnone
    exact interpret_fresh_aux consts fs net vars out offE d callee args pos len
      out' hd hoff hb hnone

theorem interpret_destination_recording_witness :
    interpret [] [] [] (.statement (.literal 2) "buf" (.call "u8" [.literal 7]))
      ⟨[("buf.start", 0)], [5, 5]⟩ =
      (⟨[("buf.start", 0)], [5, 5, 7]⟩, some (.alreadyDefined "buf")) ∧
    interpret [] [] [] (.statement (.literal 2) "new" (.call "u8" [.literal 7]))
      ⟨[("buf.start", 0)], [5, 5]⟩ =
      (⟨[("new" ++ ".end", 3), ("new" ++ ".size", 1), ("new" ++ ".start", 2),
        ("buf.start", 0)], [5, 5, 7]⟩, none) := by
  constructor
  · exact (interpret_destination_recording [] [] [] [("buf.start", 0)] [5, 5]
      (.literal 2) "buf" "u8" [.literal 7] 2 1 [5, 5, 7] (by decide) rfl
      rfl).1 ⟨0, rfl⟩
  · exact (interpret_destination_recording [] [] [] [("buf.start", 0)] [5, 5]
      (.literal 2) "new" "u8" [.literal 7] 2 1 [5, 5, 7] (by decide) rfl
      rfl).2 rfl

/-- C10: when a statement fails with the duplicate-definition error, the
builtin call has already run, so the bytes that call wrote are retained
on the output, while the variable environment is left unchanged. -/
theorem duplicate_error_retains_output (consts : Consts)
    (fs net : List (String × List Nat)) (vars : Vars) (out : List Nat)
    (offE : Expr) (d callee : String) (args : List Expr)
    (pos len v : Nat) (out' : List Nat)
    (hd : d ≠ "_")
    (hoff : evaluate consts vars offE = .ok pos)
    (hb : runBuiltin consts fs net vars callee args pos out = .ok (len, out'))
    (hdup : hmGet vars (d ++ ".start") = some v) :
    interpret consts fs net (.statement offE d (.call callee args)) ⟨vars, out⟩ =
      (⟨vars, out'⟩, some (.alreadyDefined d)) :=
  interpret_dup_aux consts fs net vars out offE d callee args pos len v out'
    hd hoff hb hdup

theorem duplicate_error_retains_output_witness :
    interpret [] [] [] (.statement (.literal 0) "img" (.call "u16" [.literal 513]))
      ⟨[("img.start", 4)], [8, 8, 8]⟩ =
      (⟨[("img.start", 4)], [1, 2, 8]⟩, some (.alreadyDefined "img")) :=
  duplicate_error_retains_output [] [] [] [("img.start", 4)] [8, 8, 8]
    (.literal 0) "img" "u16" [.literal 513] 0 2 4 [1, 2, 8] (by decide) rfl
    rfl rfl

theorem getLast_append_str (a t : String) (ht : t.data ≠ []) :
    (a ++ t).data.getLast? = t.data.getLast? := by
  rw [String.data_append]
  exact List.getLast?_append_of_ne_nil _ ht

/-- Two appended keys with suffixes ending in different characters are
different strings, whatever the name parts are. -/
theorem append_ne_of_suffix (a b s t : String) (hs : s.data ≠ [])
    (ht : t.data ≠ []) (hne : s.data.getLast? ≠ t.data.getLast?) :
    a ++ s ≠ b ++ t := by
  intro h
  apply hne
  rw [← getLast_append_str a s hs, ← getLast_append_str b t ht, h]

/-- Appending the same suffix is injective on the name part. -/
theorem append_key_inj (a b t : String) (h : a ++ t = b ++ t) : a = b := by
  apply String.ext
  have hd := congrArg String.data h
  rw [String.data_append, String.data_append] at hd
  exact List.append_cancel_right hd

theorem key_start_ne_size (a b : String) : a ++ ".start" ≠ b ++ ".size" :=
  append_ne_of_suffix a b ".start" ".size" (by decide) (by decide) (by decide)

theorem key_start_ne_end (a b : String) : a ++ ".start" ≠ b ++ ".end" :=
  append_ne_of_suffix a b ".start" ".end" (by decide) (by decide) (by decide)

theorem key_size_ne_end (a b : String) : a ++ ".size" ≠ b ++ ".end" :=
  append_ne_of_suffix a b ".size" ".end" (by decide) (by decide) (by decide)

/-- The region invariant of the variable environment: whenever all three
keys of a name are bound, the `end` value is the sum of the `start` and
`size` values. -/
def envInv (vars : Vars) : Prop :=
  ∀ a s z e, hmGet vars (a ++ ".start") = some s →
    hmGet vars (a ++ ".size") = some z →
    hmGet vars (a ++ ".end") = some e → e = s + z

theorem envInv_nil : envInv [] := by
  intro a s z e hs _ _
  simp [hmGet] at hs

theorem add_variables_envInv (vars : Vars) (n : String) (addr size : Nat)
    (vars' : Vars) (hinv : envInv vars)
    (h : add_variables vars n addr size = .ok vars') : envInv vars' := by
  unfold add_variables at h
  split at h
  · exact absurd h (by simp)
  · cases h
    intro a s z e hs hz he
    simp only [hmGet] at hs hz he
    by_cases han : a = n
    · subst han
      rw [if_neg (Ne.symm (key_start_ne_end a a)),
        if_neg (Ne.symm (key_start_ne_size a a)), if_pos rfl] at hs
      rw [if_neg (Ne.symm (key_size_ne_end a a)), if_pos rfl] at hz
      rw [if_pos rfl] at he
      cases hs
      cases hz
      cases he
      rfl
    · rw [if_neg (Ne.symm (key_start_ne_end a n)),
        if_neg (Ne.symm (key_start_ne_size a n)),
        if_neg (fun hk => han (append_key_inj n a ".start" hk).symm)] at hs
      rw [if_neg (Ne.symm (key_size_ne_end a n)),
        if_neg (fun hk => han (append_key_inj n a ".size" hk).symm),
        if_neg (key_start_ne_size n a)] at hz
      rw [if_neg (fun hk => han (append_key_inj n a ".end" hk).symm),
        if_neg (key_size_ne_end n a), if_neg (key_start_ne_end n a)] at he
      exact hinv a s z e hs hz he

theorem interpret_envInv (consts : Consts) (fs net : List (String × List Nat))
    (e : Expr) (st st' : St) (err : Option Err)
    (h : interpret consts fs net e st = (st', err)) (hinv : envInv st.vars) :
    envInv st'.vars := by
  unfold interpret at h
  split at h
  · split at h
    · cases h; exact hinv
    · split at h
      · split at h
        · cases h; exact hinv
        · split at h
          · split at h
            · cases h; exact hinv
            · rename_i vars' hadd
              cases h
              exact add_variables_envInv _ _ _ _ _ hinv hadd
          · cases h; exact hinv
      · cases h; exact hinv
  · cases h; exact hinv

theorem run_envInv (consts : Consts) (fs net : List (String × List Nat)) :
    ∀ (stmts : List Expr) (st st' : St) (err : Option Err),
      run consts fs net stmts st = (st', err) → envInv st.vars →
      envInv st'.vars := by
  intro stmts
  induction stmts with
  | nil =>
    intro st st' err h hinv
    unfold run at h
    cases h
    exact hinv
  | cons e es ih =>
    intro st st' err h hinv
    unfold run at h
    split at h
    · rename_i st1 heq
      exact ih st1 st' err h (interpret_envInv _ _ _ _ _ _ _ heq hinv)
    · rename_i st1 er heq
      cases h
      exact interpret_envInv _ _ _ _ _ _ _ heq hinv

/-- C7: after any sequence of successfully executed statements, every
name `a` whose three keys are bound in the variable environment satisfies
`a.end = a.start + a.size`; consequently the offset expression
`$a.start + $a.size` evaluates to the same value as `$a.end`. -/
theorem run_region_invariant (consts : Consts)
    (fs net : List (String × List Nat)) (stmts : List Expr) (st0 st : St)
    (h0 : envInv st0.vars)
    (hrun : run consts fs net stmts st0 = (st, none)) :
    ∀ a s z e, hmGet st.vars (a ++ ".start") = some s →
      hmGet st.vars (a ++ ".size") = some z →
      hmGet st.vars (a ++ ".end") = some e →
      e = s + z ∧
      evaluate consts st.vars
        (.binary .add (.var (a ++ "." ++ "start"))
          (.var (a ++ "." ++ "size"))) = .ok e ∧
      evaluate consts st.vars (.var (a ++ "." ++ "end")) = .ok e := by
  intro a s z e hs hz he
  have hinv := run_envInv consts fs net stmts st0 st none hrun h0
  have hesz := hinv a s z e hs hz he
  have e1 : a ++ "." ++ "start" = a ++ ".start" := by
    rw [String.append_assoc]
    rfl
  have e2 : a ++ "." ++ "size" = a ++ ".size" := by
    rw [String.append_assoc]
    rfl
  have e3 : a ++ "." ++ "end" = a ++ ".end" := by
    rw [String.append_assoc]
    rfl
  refine ⟨hesz, ?_, ?_⟩
  · simp only [evaluate, e1, e2, hs, hz]
    rw [hesz]
  · simp only [evaluate, e3, he]

theorem run_region_invariant_witness :
    envInv ([] : Vars) ∧
    ((1 : Nat) = 0 + 1 ∧
      evaluate []
        [("buf" ++ ".end", 0 + 1), ("buf" ++ ".size", 1), ("buf" ++ ".start", 0)]
        (.binary .add (.var ("buf" ++ "." ++ "start"))
          (.var ("buf" ++ "." ++ "size"))) = .ok 1 ∧
      evaluate []
        [("buf" ++ ".end", 0 + 1), ("buf" ++ ".size", 1), ("buf" ++ ".start", 0)]
        (.var ("buf" ++ "." ++ "end")) = .ok 1) :=
  ⟨envInv_nil,
    run_region_invariant [] [] []
      [.statement (.literal 0) "buf" (.call "u8" [.literal 5])]
      ⟨[], []⟩
      ⟨[("buf" ++ ".end", 0 + 1), ("buf" ++ ".size", 1), ("buf" ++ ".start", 0)],
        [5]⟩
      envInv_nil rfl "buf" 0 1 1 rfl rfl rfl⟩

/-- C1: a `crc16` statement naming a supported algorithm, whose address
and length arguments evaluate to a range already present on the output,
computes the 16-bit CRC of those bytes under the named algorithm, writes
the two little-endian result bytes at the statement's own offset `pos`
(independent of the address), and returns length 2; an unrecognized
algorithm name is an error.  The last conjunct is the known-answer case:
`ibm_sdlc` over the 4 bytes 01 02 03 04 (CRC 0x3991) stores 91 39 at the
declared offset 4. -/
theorem func_crc16_correct (consts : Consts) (vars : Vars) (out : List Nat)
    (algo : String) (a1 a2 : Expr) (addr n pos : Nat)
    (h1 : evaluate consts vars a1 = .ok addr)
    (h2 : evaluate consts vars a2 = .ok n)
    (hb : addr + n ≤ out.length) :
    (algo = "ibm_sdlc" →
      func_crc16 consts vars [.str algo, a1, a2] pos out =
        .ok (2, writeBytes out pos
          (le_bytes2 (crcChecksum CRC_16_IBM_SDLC ((out.drop addr).take n))))) ∧
    (algo = "modbus" →
      func_crc16 consts vars [.str algo, a1, a2] pos out =
        .ok (2, writeBytes out pos
          (le_bytes2 (crcChecksum CRC_16_MODBUS ((out.drop addr).take n))))) ∧
    (algo ≠ "ibm_sdlc" → algo ≠ "modbus" →
      func_crc16 consts vars [.str algo, a1, a2] pos out =
        .error (.unknownAlgorithm algo)) ∧
    func_crc16 [] [] [.str "ibm_sdlc", .literal 0, .literal 4] 4 [1, 2, 3, 4] =
      .ok (2, [1, 2, 3, 4, 0x91, 0x39]) := by
  refine ⟨?_, ?_, ?_, by rfl⟩
  · intro ha
    subst ha
    simp only [func_crc16, h1, h2, if_pos rfl,
      readBytes_in_bounds out addr n hb, le_bytes2, List.length_cons,
      List.length_nil]
    simp
  · intro ha
    subst ha
    simp only [func_crc16, h1, h2,
      if_neg (by decide : ¬ ("modbus" : String) = "ibm_sdlc"), if_pos rfl,
      readBytes_in_bounds out addr n hb, le_bytes2, List.length_cons,
      List.length_nil]
    simp
  · intro hn1 hn2
    simp only [func_crc16, h1, h2, if_neg hn1, if_neg hn2]

theorem func_crc16_correct_witness :
    (0 : Nat) + 4 ≤ [1, 2, 3, 4].length ∧
    func_crc16 [] [] [.str "ibm_sdlc", .literal 0, .literal 4] 4 [1, 2, 3, 4] =
      .ok (2, writeBytes [1, 2, 3, 4] 4
        (le_bytes2 (crcChecksum CRC_16_IBM_SDLC (([1, 2, 3, 4].drop 0).take 4)))) :=
  ⟨by decide,
    (func_crc16_correct [] [] [1, 2, 3, 4] "ibm_sdlc" (.literal 0) (.literal 4)
      0 4 4 rfl rfl (by decide)).1 rfl⟩

/-- C4: a token chain a - b - c (whether it ends the expression at an
end-of-line token or continues into the `:` separator of a statement)
parses to the right-associated tree a - (b - c): the right operand of the
first operator is the full remaining expression.  Consequently the chain
evaluates to a - (b - c), not (a - b) - c; for 10 - 4 - 3 these are 9 and
3 respectively. -/
theorem expr_right_assoc (a b c : Nat) (ts : List Token) :
    Parser.expr [.num a, .sub, .num b, .sub, .num c, .eol] =
      .ok (.binary .sub (.literal a)
        (.binary .sub (.literal b) (.literal c)), [.eol]) ∧
    Parser.expr (.num a :: .sub :: .num b :: .sub :: .num c ::
        .semicolon :: ts) =
      .ok (.binary .sub (.literal a)
        (.binary .sub (.literal b) (.literal c)), .semicolon :: ts) ∧
    (∀ consts vars, evaluate consts vars
      (.binary .sub (.literal a) (.binary .sub (.literal b) (.literal c))) =
      .ok (a - (b - c))) ∧
    evaluate [] []
      (.binary .sub (.literal 10) (.binary .sub (.literal 4) (.literal 3))) =
      .ok 9 ∧
    (10 - 4) - 3 = 3 ∧ (9 : Nat) ≠ 3 := by
  refine ⟨?_, ?_, fun consts vars => rfl, by rfl, by decide, by decide⟩
  · simp [Parser.expr, Parser.primary]
  · simp [Parser.expr, Parser.primary]

theorem stripPlus_of_ne (c : Char) (cs : List Char) (h : c ≠ '+') :
    stripPlus (c :: cs) = c :: cs := by
  unfold stripPlus
  split
  · rename_i r heq
    cases heq
    exact absurd rfl h
  · rfl

theorem takeWhile_all (p : Char → Bool) (l : List Char)
    (h : ∀ c ∈ l, p c = true) : l.takeWhile p = l :=
  List.takeWhile_eq_self_iff.mpr h

theorem dropWhile_all (p : Char → Bool) (l : List Char)
    (h : ∀ c ∈ l, p c = true) : l.dropWhile p = [] :=
  List.dropWhile_eq_nil_iff.mpr h

theorem digit_char_ne (c : Char) (h : is_digit c = true) :
    ¬(c = ' ' ∨ c = '\t') ∧ c ≠ '+' ∧ c ≠ '-' ∧ c ≠ ':' ∧ c ≠ ',' ∧
    c ≠ '$' ∧ c ≠ '.' ∧ c ≠ '"' ∧ c ≠ '#' := by
  unfold is_digit at h
  simp only [Bool.and_eq_true, decide_eq_true_eq] at h
  obtain ⟨h1, h2⟩ := h
  refine ⟨?_, ?_, ?_, ?_, ?_, ?_, ?_, ?_, ?_⟩
  · rintro (rfl | rfl) <;> exact absurd h1 (by decide)
  all_goals
    rintro rfl
    first
      | exact absurd h1 (by decide)
      | exact absurd h2 (by decide)

/-- On a digit character the lexer dispatches either to `probe_hex` (for
`0`) or to `integer`. -/
theorem nextToken_digit (c : Char) (cs : List Char) (h : is_digit c = true) :
    nextToken (c :: cs) = if c = '0' then probe_hex cs else integer [c] cs := by
  obtain ⟨hsp, hp, hm, hcl, hcm, hd, hdot, hq, hh⟩ := digit_char_ne c h
  unfold nextToken
  rw [if_neg hsp, if_neg hp, if_neg hm, if_neg hcl, if_neg hcm, if_neg hd,
    if_neg hdot, if_neg hq, if_neg hh]
  by_cases h0 : c = '0'
  · rw [if_pos h0, if_pos h0]
  · rw [if_neg h0, if_neg h0, if_pos h]

theorem to_digit_10_isSome (c : Char) (h : is_digit c = true) :
    (to_digit 10 c).isSome = true := by
  have h' : 48 ≤ c.toNat ∧ c.toNat ≤ 57 := by
    unfold is_digit at h
    simp only [Bool.and_eq_true, decide_eq_true_eq] at h
    exact ⟨h.1, h.2⟩
  unfold to_digit
  rw [if_pos h]
  show (if c.toNat - 48 < 10 then some (c.toNat - 48) else none).isSome = true
  rw [if_pos (show c.toNat - 48 < 10 by omega)]
  rfl

theorem to_digit_16_isSome (c : Char) (h : is_hex_digit c = true) :
    (to_digit 16 c).isSome = true := by
  unfold is_hex_digit at h
  simp only [Bool.or_eq_true, Bool.and_eq_true, decide_eq_true_eq] at h
  unfold to_digit
  rcases h with (hd | ⟨h1, h2⟩) | ⟨h1, h2⟩
  · have h' : 48 ≤ c.toNat ∧ c.toNat ≤ 57 := by
      unfold is_digit at hd
      simp only [Bool.and_eq_true, decide_eq_true_eq] at hd
      exact ⟨hd.1, hd.2⟩
    rw [if_pos hd]
    show (if c.toNat - 48 < 16 then some (c.toNat - 48) else none).isSome = true
    rw [if_pos (show c.toNat - 48 < 16 by omega)]
    rfl
  · have h1' : 97 ≤ c.toNat := h1
    have h2' : c.toNat ≤ 102 := h2
    have hdf : ¬ is_digit c = true := by
      unfold is_digit
      simp only [Bool.and_eq_true, decide_eq_true_eq]
      rintro ⟨_, hb⟩
      have hb' : c.toNat ≤ 57 := hb
      omega
    rw [if_neg hdf,
      if_pos (show (decide ('a' ≤ c) && decide (c ≤ 'z')) = true by
        simp only [Bool.and_eq_true, decide_eq_true_eq]
        exact ⟨h1, show c.toNat ≤ 122 by omega⟩)]
    show (if c.toNat - 97 + 10 < 16 then some (c.toNat - 97 + 10)
      else none).isSome = true
    rw [if_pos (show c.toNat - 97 + 10 < 16 by omega)]
    rfl
  · have h1' : 65 ≤ c.toNat := h1
    have h2' : c.toNat ≤ 70 := h2
    have hdf : ¬ is_digit c = true := by
      unfold is_digit
      simp only [Bool.and_eq_true, decide_eq_true_eq]
      rintro ⟨_, hb⟩
      have hb' : c.toNat ≤ 57 := hb
      omega
    have haf : ¬ (decide ('a' ≤ c) && decide (c ≤ 'z')) = true := by
      simp only [Bool.and_eq_true, decide_eq_true_eq]
      rintro ⟨ha, _⟩
      have ha' : 97 ≤ c.toNat := ha
      omega
    rw [if_neg hdf, if_neg haf,
      if_pos (show (decide ('A' ≤ c) && decide (c ≤ 'Z')) = true by
        simp only [Bool.and_eq_true, decide_eq_true_eq]
        exact ⟨h1, show c.toNat ≤ 90 by omega⟩)]
    show (if c.toNat - 65 + 10 < 16 then some (c.toNat - 65 + 10)
      else none).isSome = true
    rw [if_pos (show c.toNat - 65 + 10 < 16 by omega)]
    rfl

theorem validDigits_of_all (radix : Nat) (l : List Char)
    (h : ∀ c ∈ l, (to_digit radix c).isSome = true) :
    validDigits radix l = true := by
  unfold validDigits
  rw [List.all_eq_true]
  exact h

theorem fromStrRadix_ok (radix : Nat) (c : Char) (cs : List Char)
    (hplus : c ≠ '+') (hval : validDigits radix (c :: cs) = true)
    (hlt : digitsVal radix (c :: cs) < 2 ^ 64) :
    fromStrRadix radix (c :: cs) = .ok (digitsVal radix (c :: cs)) := by
  unfold fromStrRadix
  rw [stripPlus_of_ne c cs hplus, if_neg (by simp), if_pos hval, if_pos hlt]

theorem lexLine_step (cs : List Char) (t : Token) (rest : List Char)
    (hnt : nextToken cs = .ok (t, rest)) (ht : t ≠ .eol) :
    lexLine cs = match lexLine rest with
      | .error e => .error e
      | .ok ts => .ok (t :: ts) := by
  rw [lexLine.eq_def]
  split
  · rename_i e heq
    rw [hnt] at heq
    cases heq
  · rename_i t' rest' heq
    rw [hnt] at heq
    cases heq
    rw [dif_neg ht]

theorem lexLine_eol (cs : List Char) (rest : List Char)
    (hnt : nextToken cs = .ok (.eol, rest)) : lexLine cs = .ok [.eol] := by
  rw [lexLine.eq_def]
  split
  · rename_i e heq
    rw [hnt] at heq
    cases heq
  · rename_i t' rest' heq
    rw [hnt] at heq
    cases heq
    rw [dif_pos rfl]

theorem lexLine_nil : lexLine [] = .ok [.eol] :=
  lexLine_eol [] [] rfl

theorem nextToken_all_digits (ds : List Char) (h1 : ds ≠ [])
    (h2 : ∀ c ∈ ds, is_digit c = true) (h3 : digitsVal 10 ds < 2 ^ 64) :
    nextToken ds = .ok (.num (digitsVal 10 ds), []) := by
  match ds, h1 with
  | c :: cs, _ =>
    have hc := h2 c (by simp)
    have hcs : ∀ x ∈ cs, is_digit x = true := fun x hx => h2 x (by simp [hx])
    have htake : cs.takeWhile is_digit = cs := takeWhile_all _ _ hcs
    have hdrop : cs.dropWhile is_digit = [] := dropWhile_all _ _ hcs
    have hfsr : fromStrRadix 10 (c :: cs) = .ok (digitsVal 10 (c :: cs)) := by
      apply fromStrRadix_ok
      · exact (digit_char_ne c hc).2.1
      · exact validDigits_of_all 10 _ fun x hx => to_digit_10_isSome x (h2 x hx)
      · exact h3
    rw [nextToken_digit c cs hc]
    by_cases h0 : c = '0'
    · rw [if_pos h0]
      subst h0
      have hpp : probe_hex cs = integer ['0'] cs := by
        unfold probe_hex
        split
        · exact absurd (hcs 'x' (by simp)) (by decide)
        · rfl
      rw [hpp]
      unfold integer
      rw [htake, hdrop, show (['0'] ++ cs) = '0' :: cs from rfl, hfsr]
    · rw [if_neg h0]
      unfold integer
      rw [htake, hdrop, show ([c] ++ cs) = c :: cs from rfl, hfsr]

theorem lex_digits_line (ds : List Char) (h1 : ds ≠ [])
    (h2 : ∀ c ∈ ds, is_digit c = true) (h3 : digitsVal 10 ds < 2 ^ 64) :
    lexLine ds = .ok [.num (digitsVal 10 ds), .eol] := by
  rw [lexLine_step ds (.num (digitsVal 10 ds)) []
    (nextToken_all_digits ds h1 h2 h3) (by simp), lexLine_nil]

theorem lex_hex_line (hs : List Char) (h1 : hs ≠ [])
    (h2 : ∀ c ∈ hs, is_hex_digit c = true) (h3 : digitsVal 16 hs < 2 ^ 64) :
    lexLine ('0' :: 'x' :: hs) = .ok [.num (digitsVal 16 hs), .eol] := by
  have hnt : nextToken ('0' :: 'x' :: hs) =
      .ok (.num (digitsVal 16 hs), []) := by
    rw [nextToken_digit '0' ('x' :: hs) (by decide), if_pos rfl]
    show integer_hex hs = _
    match hs, h1 with
    | c :: cs, _ =>
      have htake : (c :: cs).takeWhile is_hex_digit = c :: cs :=
        takeWhile_all _ _ h2
      have hdrop : (c :: cs).dropWhile is_hex_digit = [] :=
        dropWhile_all _ _ h2
      have hfsr : fromStrRadix 16 (c :: cs) = .ok (digitsVal 16 (c :: cs)) := by
        apply fromStrRadix_ok
        · intro hc
          have := h2 c (by simp)
          rw [hc] at this
          exact absurd this (by decide)
        · exact validDigits_of_all 16 _ fun x hx => to_digit_16_isSome x (h2 x hx)
        · exact h3
      unfold integer_hex
      rw [htake, hdrop, hfsr]
  rw [lexLine_step _ _ _ hnt (by simp), lexLine_nil]

/-- C9: for a decimal digit string and for a `0x`-prefixed hex digit
string (whose value fits in `usize`), the lexer yields exactly one
integer token whose value is the literal read positionally in base 10 or
base 16; in particular lexing `0x1A` yields the integer token 26. -/
theorem lexer_integer_tokens (ds hs : List Char)
    (hd1 : ds ≠ []) (hd2 : ∀ c ∈ ds, is_digit c = true)
    (hd3 : digitsVal 10 ds < 2 ^ 64)
    (hh1 : hs ≠ []) (hh2 : ∀ c ∈ hs, is_hex_digit c = true)
    (hh3 : digitsVal 16 hs < 2 ^ 64) :
    lexLine ds = .ok [.num (digitsVal 10 ds), .eol] ∧
    lexLine ('0' :: 'x' :: hs) = .ok [.num (digitsVal 16 hs), .eol] ∧
    lexLine ("0x1A".data) = .ok [.num 26, .eol] := by
  refine ⟨lex_digits_line ds hd1 hd2 hd3, lex_hex_line hs hh1 hh2 hh3, ?_⟩
  have h := lex_hex_line ['1', 'A'] (by simp) (by decide) (by decide)
  rw [show ("0x1A".data) = '0' :: 'x' :: ['1', 'A'] from rfl, h]
  rfl

theorem lexer_integer_tokens_witness :
    lexLine ['4','2'] = .ok [.num (digitsVal 10 ['4', '2']), .eol] ∧
    lexLine ('0' :: 'x' :: ['1', 'A']) =
      .ok [.num (digitsVal 16 ['1', 'A']), .eol] ∧
    lexLine ("0x1A".data) = .ok [.num 26, .eol] :=
  lexer_integer_tokens ['4', '2'] ['1', 'A'] (by simp) (by decide) (by decide)
    (by simp) (by decide) (by decide)

/-- Whether an error value is the duplicate-definition error raised by
`add_variables`. -/
def Err.is_dup : Err → Bool
  | .alreadyDefined _ => true
  | _ => false

theorem fromStrRadix_not_dup (radix : Nat) (s : List Char) (er : Err)
    (h : fromStrRadix radix s = .error er) : er.is_dup = false := by
  unfold fromStrRadix at h
  split at h
  · cases h; rfl
  · split at h
    · split at h
      · exact absurd h (by simp)
      · cases h; rfl
    · cases h; rfl

theorem evaluate_not_dup (consts : Consts) (vars : Vars) :
    ∀ (e : Expr) (er : Err), evaluate consts vars e = .error er →
      er.is_dup = false
  | .literal v, er, h => by simp [evaluate] at h
  | .var name, er, h => by
    simp only [evaluate] at h
    cases hm : hmGet vars name with
    | some v => rw [hm] at h; exact absurd h (by simp)
    | none => rw [hm] at h; cases h; rfl
  | .const name, er, h => by
    simp only [evaluate] at h
    cases hm : hmGet consts name with
    | some v => rw [hm] at h; exact fromStrRadix_not_dup 10 v.data er h
    | none => rw [hm] at h; cases h; rfl
  | .str v, er, h => by
    simp only [evaluate] at h; cases h; rfl
  | .call callee args, er, h => by
    simp only [evaluate] at h; cases h; rfl
  | .statement o d f, er, h => by
    simp only [evaluate] at h; cases h; rfl
  | .binary op l r, er, h => by
    cases op
    case add =>
      simp only [evaluate] at h
      cases hl : evaluate consts vars l with
      | error e1 =>
        rw [hl] at h
        cases h
        exact evaluate_not_dup consts vars l _ hl
      | ok v1 =>
        rw [hl] at h
        cases hr : evaluate consts vars r with
        | error e2 =>
          rw [hr] at h
          cases h
          exact evaluate_not_dup consts vars r _ hr
        | ok v2 => rw [hr] at h; exact absurd h (by simp)
    case sub =>
      simp only [evaluate] at h
      cases hl : evaluate consts vars l with
      | error e1 =>
        rw [hl] at h
        cases h
        exact evaluate_not_dup consts vars l _ hl
      | ok v1 =>
        rw [hl] at h
        cases hr : evaluate consts vars r with
        | error e2 =>
          rw [hr] at h
          cases h
          exact evaluate_not_dup consts vars r _ hr
        | ok v2 => rw [hr] at h; exact absurd h (by simp)
    all_goals
      simp only [evaluate] at h
      cases h
      rfl

theorem runBuiltin_not_dup (consts : Consts) (fs net : List (String × List Nat))
    (vars : Vars) (callee : String) (args : List Expr) (pos : Nat)
    (outf : List Nat) (er : Err)
    (h : runBuiltin consts fs net vars callee args pos outf = .error er) :
    er.is_dup = false := by
  unfold runBuiltin func_file func_url func_crc16 func_u32 func_u16 func_u8 at h
  repeat' split at h
  all_goals
    first
      | ((cases h) <;> rfl)
      | ((cases h) <;> exact evaluate_not_dup consts vars _ _ (by assumption))
      | (cases h
         rename_i heq
         repeat' split at heq
         all_goals ((cases heq) <;> rfl))

/-- A statement with the discard destination `_` leaves the variable
environment untouched and can only fail with an error that is not the
duplicate-definition one. -/
theorem interpret_discard (consts : Consts) (fs net : List (String × List Nat))
    (offE f : Expr) (st : St) :
    (interpret consts fs net (.statement offE "_" f) st).1.vars = st.vars ∧
    ∀ er, (interpret consts fs net (.statement offE "_" f) st).2 = some er →
      er.is_dup = false := by
  unfold interpret
  cases hoff : evaluate consts st.vars offE with
  | error er0 =>
    simp only [hoff]
    exact ⟨by trivial, fun er h => by
      cases h
      exact evaluate_not_dup consts st.vars offE er0 hoff⟩
  | ok pos =>
    simp only [hoff]
    cases f
    case call callee args =>
      cases hb : runBuiltin consts fs net st.vars callee args pos st.out with
      | error er1 =>
        simp only [hb]
        exact ⟨by trivial, fun er h => by
          cases h
          exact runBuiltin_not_dup consts fs net st.vars callee args pos
            st.out er1 hb⟩
      | ok p =>
        obtain ⟨len, out'⟩ := p
        simp only [hb]
        rw [if_neg (fun hc => hc rfl)]
        exact ⟨by trivial, fun er h => by cases h⟩
    all_goals exact ⟨by trivial, fun er h => by cases h; rfl⟩

/-- C8: statements whose destination is the reserved name `_` never
insert variable-environment entries and never raise the
duplicate-definition error, however many of them a run contains. -/
theorem run_discard_destinations (consts : Consts)
    (fs net : List (String × List Nat)) :
    ∀ (stmts : List Expr) (st0 st : St) (err : Option Err),
      (∀ x ∈ stmts, ∃ off f, x = Expr.statement off "_" f) →
      run consts fs net stmts st0 = (st, err) →
      st.vars = st0.vars ∧ ∀ n, err ≠ some (.alreadyDefined n) := by
  intro stmts
  induction stmts with
  | nil =>
    intro st0 st err hall h
    unfold run at h
    cases h
    exact ⟨rfl, by simp⟩
  | cons e es ih =>
    intro st0 st err hall h
    obtain ⟨off, f, rfl⟩ := hall e (by simp)
    unfold run at h
    split at h
    · rename_i st1 heq
      have hd := interpret_discard consts fs net off f st0
      rw [heq] at hd
      obtain ⟨h2, h3⟩ := ih st1 st err (fun x hx => hall x (by simp [hx])) h
      exact ⟨h2.trans hd.1, h3⟩
    · rename_i st1 er heq
      cases h
      have hd := interpret_discard consts fs net off f st0
      rw [heq] at hd
      refine ⟨hd.1, fun n hc => ?_⟩
      cases hc
      simpa [Err.is_dup] using hd.2 _ rfl

theorem run_discard_destinations_witness :
    (∀ x ∈ [Expr.statement (.literal 0) "_" (.call "u8" [.literal 7]),
        Expr.statement (.literal 1) "_" (.call "u8" [.literal 8])],
      ∃ off f, x = Expr.statement off "_" f) ∧
    ((⟨[], [7, 8]⟩ : St).vars = (⟨[], []⟩ : St).vars ∧
      ∀ n, (none : Option Err) ≠ some (.alreadyDefined n)) := by
  have hall : ∀ x ∈ [Expr.statement (.literal 0) "_" (.call "u8" [.literal 7]),
      Expr.statement (.literal 1) "_" (.call "u8" [.literal 8])],
      ∃ off f, x = Expr.statement off "_" f := by
    intro x hx
    simp only [List.mem_cons, List.not_mem_nil, or_false] at hx
    rcases hx with rfl | rfl
    · exact ⟨_, _, rfl⟩
    · exact ⟨_, _, rfl⟩
  exact ⟨hall, run_discard_destinations [] [] []
    [Expr.statement (.literal 0) "_" (.call "u8" [.literal 7]),
      Expr.statement (.literal 1) "_" (.call "u8" [.literal 8])]
    ⟨[], []⟩ ⟨[], [7, 8]⟩ none hall rfl⟩

/-- C3: the parser of src/parser.rs as given cannot accept a bare
identifier as a builtin argument: its `Expr` enum has no `Const` variant
and `Parser::primary` rejects an identifier token with "Unexpected
primary token", even though main.rs pattern-matches `parser::Expr::Const`
(so the two files cannot compile together) and the spec says bare
identifiers parse as constant references.  Concretely, the line
`10:buf:file,NAME` lexes fine and then fails to parse at `NAME`. -/
theorem parse_bare_identifier_rejected :
    lexLine ("10:buf:file,NAME".data) =
      .ok [.num 10, .semicolon, .ident "buf", .semicolon, .ident "file",
        .comma, .ident "NAME", .eol] ∧
    Parser.parse [.num 10, .semicolon, .ident "buf", .semicolon,
      .ident "file", .comma, .ident "NAME", .eol] =
      some (.error .unexpectedPrimaryToken) := by
  constructor
  · rw [show ("10:buf:file,NAME".data) =
      ['1', '0', ':', 'b', 'u', 'f', ':', 'f', 'i', 'l', 'e', ',',
        'N', 'A', 'M', 'E'] from rfl]
    rw [lexLine_step ['1', '0', ':', 'b', 'u', 'f', ':', 'f', 'i', 'l', 'e', ',', 'N', 'A', 'M', 'E'] (.num 10)
      [':', 'b', 'u', 'f', ':', 'f', 'i', 'l', 'e', ',', 'N', 'A', 'M', 'E'] rfl (by simp)]
    rw [lexLine_step [':', 'b', 'u', 'f', ':', 'f', 'i', 'l', 'e', ',', 'N', 'A', 'M', 'E'] (.semicolon)
      ['b', 'u', 'f', ':', 'f', 'i', 'l', 'e', ',', 'N', 'A', 'M', 'E'] rfl (by simp)]
    rw [lexLine_step ['b', 'u', 'f', ':', 'f', 'i', 'l', 'e', ',', 'N', 'A', 'M', 'E'] (.ident "buf")
      [':', 'f', 'i', 'l', 'e', ',', 'N', 'A', 'M', 'E'] rfl (by simp)]
    rw [lexLine_step [':', 'f', 'i', 'l', 'e', ',', 'N', 'A', 'M', 'E'] (.semicolon)
      ['f', 'i', 'l', 'e', ',', 'N', 'A', 'M', 'E'] rfl (by simp)]
    rw [lexLine_step ['f', 'i', 'l', 'e', ',', 'N', 'A', 'M', 'E'] (.ident "file")
      [',', 'N', 'A', 'M', 'E'] rfl (by simp)]
    rw [lexLine_step [',', 'N', 'A', 'M', 'E'] (.comma)
      ['N', 'A', 'M', 'E'] rfl (by simp)]
    rw [lexLine_step ['N', 'A', 'M', 'E'] (.ident "NAME")
      [] rfl (by simp)]
    rw [lexLine_nil]
  · have hoff : Parser.expr [Token.num 10, Token.semicolon, Token.ident "buf",
        Token.semicolon, Token.ident "file", Token.comma, Token.ident "NAME",
        Token.eol] = .ok (.literal 10, [Token.semicolon, Token.ident "buf",
        Token.semicolon, Token.ident "file", Token.comma, Token.ident "NAME",
        Token.eol]) := by
      rw [Parser.expr.eq_def]
      simp [Parser.primary]
    have hne : Parser.expr [Token.ident "NAME", Token.eol] =
        .error .unexpectedPrimaryToken := by
      rw [Parser.expr.eq_def]
      simp [Parser.primary]
    have hpa : Parser.parseArgs [Token.comma, Token.ident "NAME", Token.eol] =
        .error .unexpectedPrimaryToken := by
      rw [Parser.parseArgs.eq_def]
      repeat' split
      all_goals
        first
          | rfl
          | simp_all [hne]
          | (rename_i hx; exact (hx _ rfl).elim)
    simp only [Parser.parse, Parser.statement, hoff, Parser.cons_semicolon,
      Parser.cons_ident, hpa]

end Bincomb
